import Mathlib

/-!
Verification of the word-translation evaluation in
`src/evaluation/word_translation.py` (a MUSE fork for a Sundanese-Javanese
dictionary).  The pure numeric and aggregation logic of `load_dictionary`
and `get_word_translation_accuracy` is shallowly embedded below:
tensors become lists of rationals, Python dicts become association lists,
and fallible steps (asserts, IndexError, tensor max on an empty tensor)
return `Except`.
-/

set_option autoImplicit false

namespace MuseEval

/-! ## Basic vector and matrix helpers -/

/-- Dot product of two rational vectors (one entry of a `torch.mm`). -/
def dotQ (u v : List ℚ) : ℚ := (List.zipWith (fun a b => a * b) u v).sum

/-! ## The Python-dict model used by the matching aggregation

`matching` in `get_word_translation_accuracy` is a Python dict from a
source id to its capped hit count.  We model it as an association list:
assignment replaces the value of an existing key in place and appends a
fresh key at the end, exactly like insertion-ordered Python dicts. -/

/-- `matching.get(key, 0)`. -/
def dictGet (m : List (Nat × Nat)) (key : Nat) : Nat :=
  (List.lookup key m).getD 0

/-- `matching[key] = v`: replace the entry of an existing key in place and
append a fresh key at the end, like insertion-ordered Python dicts. -/
def dictUpd : List (Nat × Nat) → Nat → Nat → List (Nat × Nat)
  | [], key, v => [(key, v)]
  | p :: ps, key, v =>
    if p.1 = key then (key, v) :: ps else p :: dictUpd ps key v

/-! ## The per-row hit data

Row `i` of the sliced `top_k_matches` tensor is compared against the gold
target of dictionary row `i`; `_matching[i]` is the number of equal
entries in that row. -/

/-- `_matching[i]` for one row: `(top_k_matches == dico[:, 1][:, None]).sum(1)`
restricted to row `i`, i.e. how many of the first `k` predicted ids equal
the gold target of that dictionary row. -/
def rowHit (k : Nat) (row : List Nat) (tgt : Nat) : Nat :=
  (row.take k).count tgt

/-- The sequence of `(src_id, _matching[i])` pairs the aggregation loop
iterates over, one per dictionary row (`for i, src_id in
enumerate(dico[:, 0])`). -/
def hitEntries (k : Nat) (topk : List (List Nat)) (dico : List (Nat × Nat)) :
    List (Nat × Nat) :=
  (dico.zip topk).map (fun pr => (pr.1.1, rowHit k pr.2 pr.1.2))

/-- One iteration of the aggregation loop: store
`matching[src_id] = min(matching.get(src_id, 0) + _matching[i], 1)` and then
append `(src_id, min(matching.get(src_id, 0) + _matching[i], 1))` to the
trace list, where the second `get` re-reads the freshly stored value. -/
def aggStep (st : List (Nat × Nat) × List (Nat × Nat)) (e : Nat × Nat) :
    List (Nat × Nat) × List (Nat × Nat) :=
  let m := dictUpd st.1 e.1 (min (dictGet st.1 e.1 + e.2) 1)
  (m, st.2 ++ [(e.1, min (dictGet m e.1 + e.2) 1)])

/-- The whole aggregation loop, returning the dict and the trace list. -/
def aggRun (entries : List (Nat × Nat)) :
    List (Nat × Nat) × List (Nat × Nat) :=
  entries.foldl aggStep ([], [])

/-- The `matching` dict after the loop. -/
def matchingDict (entries : List (Nat × Nat)) : List (Nat × Nat) :=
  (aggRun entries).1

/-- The `trans_match` trace list after the loop. -/
def transMatch (entries : List (Nat × Nat)) : List (Nat × Nat) :=
  (aggRun entries).2

/-! ## The reported metrics -/

/-- `listed_dico`: the flattened list of all gold target ids of the
dictionary (`[x for sub in dico[:, 1][:, None] for x in sub]`). -/
def listedDico (dico : List (Nat × Nat)) : List Nat :=
  dico.map (fun p => p.2)

/-- `n_relevant`: the counting loop walks the rows of the sliced top-k
tensor and, scanning each row left to right, adds one and breaks at the
first predicted id that occurs in `listed_dico`. -/
def nRelevantCode (k : Nat) (topk : List (List Nat)) (dico : List (Nat × Nat)) :
    Nat :=
  topk.countP (fun row => (row.take k).any (fun v => (listedDico dico).contains v))

/-- `np.sum(list(matching.values()))`. -/
def matchSum (k : Nat) (topk : List (List Nat)) (dico : List (Nat × Nat)) : Nat :=
  ((matchingDict (hitEntries k topk dico)).map (fun p => p.2)).sum

/-- `len(matching)`: the number of distinct source ids seen by the loop. -/
def nDistinct (k : Nat) (topk : List (List Nat)) (dico : List (Nat × Nat)) : Nat :=
  (matchingDict (hitEntries k topk dico)).length

/-- `precision_at_k = 100 * np.sum(list(matching.values())) / n_relevant`. -/
def precisionAtK (k : Nat) (topk : List (List Nat)) (dico : List (Nat × Nat)) : ℚ :=
  100 * (matchSum k topk dico : ℚ) / (nRelevantCode k topk dico : ℚ)

/-- `recall_at_k = 100 * np.mean(list(matching.values()))`; the mean of a
list is its sum divided by its length. -/
def recallAtK (k : Nat) (topk : List (List Nat)) (dico : List (Nat × Nat)) : ℚ :=
  100 * (matchSum k topk dico : ℚ) / (nDistinct k topk dico : ℚ)

/-- `f1score_at_k = 2 * (precision_at_k * recall_at_k) / (precision_at_k +
recall_at_k)`, computed with no guard on the denominator.  In the code the
operands are numpy float64 scalars, so a zero denominator yields a silent
NaN (with a RuntimeWarning), never an exception; the rational model gives
the junk value of division by zero instead. -/
def f1AtK (k : Nat) (topk : List (List Nat)) (dico : List (Nat × Nat)) : ℚ :=
  2 * (precisionAtK k topk dico * recallAtK k topk dico) /
    (precisionAtK k topk dico + recallAtK k topk dico)

/-- The three `(name, value)` results appended for one cutoff `k`.  The
metric block performs no raising operation (numpy scalar division by zero
warns and yields NaN or Inf rather than raising), so the computation always
finishes with a value; the `Except` wrapper records that absence of an
error path. -/
def resultsForK (k : Nat) (topk : List (List Nat)) (dico : List (Nat × Nat)) :
    Except String (List (String × ℚ)) :=
  Except.ok
    [("precision_at_" ++ toString k, precisionAtK k topk dico),
     ("recall_at_" ++ toString k, recallAtK k topk dico),
     ("f1score_at_" ++ toString k, f1AtK k topk dico)]

/-! ## The `load_dictionary` model

File reading is external; the model starts from the list of lines returned
by `readlines()` (with their trailing newline already irrelevant, since the
code strips every line before splitting it).  Vocabularies are association
lists from word strings to ids. -/

/-- Tokenizer over the character list of a line: splits on runs of
whitespace, producing no empty tokens. -/
def tokChars : List Char → List Char → List String
  | [], acc => if acc = [] then [] else [String.mk acc.reverse]
  | c :: cs, acc =>
    if c.isWhitespace then
      (if acc = [] then tokChars cs [] else String.mk acc.reverse :: tokChars cs [])
    else tokChars cs (c :: acc)

/-- `line.rstrip().split()`: split on whitespace runs, dropping empty
tokens (Python `str.split()` with no argument; the preceding `rstrip` is
subsumed by it). -/
def splitWS (s : String) : List String := tokChars s.data []

/-- `line.lower()`, on the character list of the line. -/
def lowerStr (s : String) : String := String.mk (s.data.map Char.toLower)

/-- Collect the first whitespace token of every line; a line with no token
makes the comprehension
`[x.rstrip().split()[0] for x in data]` raise IndexError. -/
def headTokens : List String → Except String (List String)
  | [] => Except.ok []
  | x :: xs =>
    match (splitWS x).head? with
    | none => Except.error "IndexError: list index out of range"
    | some t =>
      match headTokens xs with
      | Except.error e => Except.error e
      | Except.ok ts => Except.ok (t :: ts)

/-- Stable insertion into a list sorted ascending by the first component:
the new element goes after every element with a smaller-or-equal key, so
repeated insertion reproduces the stable `sorted(pairs, key=...)`. -/
def insertBySrc (x : Nat × Nat) : List (Nat × Nat) → List (Nat × Nat)
  | [] => [x]
  | y :: ys => if y.1 ≤ x.1 then y :: insertBySrc x ys else x :: y :: ys

/-- Stable sort of the id pairs by source id
(`sorted(pairs, key=lambda x: word2id1[x[0]])`). -/
def sortBySrc (l : List (Nat × Nat)) : List (Nat × Nat) :=
  l.foldl (fun acc x => insertBySrc x acc) []

/-- The outcome of `load_dictionary`: the sorted id pairs, `n_gold_std`,
the skipped `(index, line)` warnings, and the three not-found counters. -/
structure LoadResult where
  dico : List (Nat × Nat)
  nGoldStd : Nat
  warnings : List (Nat × String)
  notFound : Nat × Nat × Nat
  deriving DecidableEq, Repr

/-- The state accumulated by the line loop: kept pairs, warnings and the
three not-found counters. -/
abbrev LoadState :=
  List (Nat × Nat) × List (Nat × String) × Nat × Nat × Nat

/-- Apply the contribution of the current line in front of the outcome of
the remaining lines. -/
def withRest (r : Except String LoadState) (f : LoadState → LoadState) :
    Except String LoadState :=
  match r with
  | Except.error e => Except.error e
  | Except.ok s => Except.ok (f s)

/-- The line loop of `load_dictionary`, iterating over `(index, line)`:
assert the line is lowercase, split it, warn and skip on fewer than two
tokens, raise on more than two (the `word1, word2 = parts` unpacking), and
otherwise keep the pair when both words are in vocabulary, incrementing
the not-found counters when not.  Each line is fully processed before the
next one, so the first failing line determines the raised error. -/
def loadLoop (w1 w2 : List (String × Nat)) :
    List (Nat × String) → Except String LoadState
  | [] => Except.ok ([], [], 0, 0, 0)
  | (i, line) :: rest =>
    if line ≠ lowerStr line then
      Except.error "AssertionError"
    else
      match splitWS line with
      | [] =>
        withRest (loadLoop w1 w2 rest)
          (fun s => (s.1, (i, line) :: s.2.1, s.2.2))
      | [_] =>
        withRest (loadLoop w1 w2 rest)
          (fun s => (s.1, (i, line) :: s.2.1, s.2.2))
      | [a, b] =>
        match List.lookup a w1, List.lookup b w2 with
        | some i1, some i2 =>
          withRest (loadLoop w1 w2 rest)
            (fun s => ((i1, i2) :: s.1, s.2))
        | some _, none =>
          withRest (loadLoop w1 w2 rest)
            (fun s => (s.1, s.2.1, s.2.2.1 + 1, s.2.2.2.1, s.2.2.2.2 + 1))
        | none, some _ =>
          withRest (loadLoop w1 w2 rest)
            (fun s => (s.1, s.2.1, s.2.2.1 + 1, s.2.2.2.1 + 1, s.2.2.2.2))
        | none, none =>
          withRest (loadLoop w1 w2 rest)
            (fun s => (s.1, s.2.1, s.2.2.1 + 1, s.2.2.2.1 + 1, s.2.2.2.2 + 1))
      | _ => Except.error "ValueError: too many values to unpack"

/-- `load_dictionary`, from the list of lines of the file: first the
`n_gold_std` comprehension over the whole file (which can raise
IndexError), then the line loop, then the stable sort by source id. -/
def loadDictionary (data : List String) (w1 w2 : List (String × Nat)) :
    Except String LoadResult :=
  match headTokens data with
  | Except.error e => Except.error e
  | Except.ok ts =>
    match loadLoop w1 w2 (data.enum) with
    | Except.error e => Except.error e
    | Except.ok (ps, ws, nf, nf1, nf2) =>
      Except.ok ⟨sortBySrc ps, ts.dedup.length, ws, (nf, nf1, nf2)⟩

deriving instance DecidableEq for Except

/-- `tensor.max()` raises on an empty tensor. -/
def tensorMax : List Nat → Except String Nat
  | [] => Except.error "max(): cannot perform reduction on an empty tensor"
  | x :: xs => Except.ok (xs.foldl max x)

/-- The prelude of `get_word_translation_accuracy`: load the dictionary,
then run the two asserts `dico[:, 0].max() < emb1.size(0)` and
`dico[:, 1].max() < emb2.size(0)`. -/
def evalPrelude (data : List String) (w1 w2 : List (String × Nat))
    (n1 n2 : Nat) : Except String (List (Nat × Nat) × Nat) :=
  match loadDictionary data w1 w2 with
  | Except.error e => Except.error e
  | Except.ok r =>
    match tensorMax (r.dico.map (fun p => p.1)) with
    | Except.error e => Except.error e
    | Except.ok m1 =>
      match tensorMax (r.dico.map (fun p => p.2)) with
      | Except.error e => Except.error e
      | Except.ok m2 =>
        if m1 < n1 then
          if m2 < n2 then Except.ok (r.dico, r.nGoldStd)
          else Except.error "AssertionError"
        else Except.error "AssertionError"

/-! ## The scoring models

Both embedding tables are L2-row-normalized before any method runs
(`emb = emb / emb.norm(2, 1, keepdim=True)`); the row normalization is an
external square-root computation, so the matrices below stand for the
already normalized tables and every theorem about them is a statement
about normalized rows. -/

/-- The `nn` branch: `query = emb1[dico[:, 0]]`,
`scores = query.mm(emb2.transpose(0, 1))`; one row per dictionary pair. -/
def nnScores (emb1 emb2 : List (List ℚ)) (dico : List (Nat × Nat)) :
    List (List ℚ) :=
  dico.map (fun p => emb2.map (fun t => dotQ (emb1.getD p.1 []) t))

/-- Insertion sort of rationals in descending order, used to pick the `k`
largest similarities. -/
def insertDescQ (x : ℚ) : List ℚ → List ℚ
  | [] => [x]
  | y :: ys => if x ≥ y then x :: y :: ys else y :: insertDescQ x ys

/-- Sort a list of rationals in descending order. -/
def sortDescQ (l : List ℚ) : List ℚ :=
  l.foldl (fun acc x => insertDescQ x acc) []

/-- Modelled from the spec: `get_nn_avg_dist(emb, query, knn)` lives in
`src/utils.py`, which is not part of the provided sources; the spec
describes it as a routine taking `(query_matrix, reference_matrix, k)` to
the per-query average of the `k` largest similarities over the full
reference vocabulary. -/
def gnnAvgDist (emb query : List (List ℚ)) (knn : Nat) : List ℚ :=
  query.map (fun q => ((sortDescQ (emb.map (fun v => dotQ q v))).take knn).sum / (knn : ℚ))

/-- The `csls_knn_<k>` branch: `average_dist1 = get_nn_avg_dist(emb2, emb1,
knn)`, `average_dist2 = get_nn_avg_dist(emb1, emb2, knn)`, then
`scores = query.mm(emb2.T)`, `scores.mul_(2)`,
`scores.sub_(average_dist1[dico[:, 0]][:, None])` (per-row) and
`scores.sub_(average_dist2[None, :])` (per-column). -/
def cslsScores (emb1 emb2 : List (List ℚ)) (dico : List (Nat × Nat))
    (knn : Nat) : List (List ℚ) :=
  let avg1 := gnnAvgDist emb2 emb1 knn
  let avg2 := gnnAvgDist emb1 emb2 knn
  let scores0 := nnScores emb1 emb2 dico
  let scores1 := scores0.map (fun row => row.map (fun s => 2 * s))
  let scores2 := (dico.zip scores1).map
    (fun pr => pr.2.map (fun s => s - avg1.getD pr.1.1 0))
  scores2.map (fun row => List.zipWith (fun s a => s - a) row avg2)

/-- Column sums of a matrix of row vectors (`scores.sum(0, keepdim=True)`),
accumulated entrywise over the rows. -/
def colSums (w : Nat) (m : List (List ℚ)) : List ℚ :=
  m.foldr (fun row acc => List.zipWith (fun a b => a + b) row acc)
    (List.replicate w 0)

/-- One column batch of the `invsm_beta_<β>` branch before the queried rows
are selected: `scores = emb1.mm(emb2[i:i+bs].T)` over the FULL source
vocabulary, then `scores.mul_(beta).exp_()` and
`scores.div_(scores.sum(0, keepdim=True))`.  The exponential is a
transcendental external primitive; it is abstracted as a function `ef`
standing for `x ↦ exp x`, about which the theorems assume only the
positivity that the real exponential satisfies. -/
def invsmBatch (ef : ℚ → ℚ) (β : ℚ) (emb1 emb2b : List (List ℚ)) :
    List (List ℚ) :=
  let m := emb1.map (fun u => emb2b.map (fun v => ef (β * dotQ u v)))
  let s := colSums emb2b.length m
  m.map (fun row => List.zipWith (fun a b => a / b) row s)

/-! ## Lemmas about the dict model -/

theorem dictGet_nil (s : Nat) : dictGet [] s = 0 := rfl

theorem dictGet_upd_self (m : List (Nat × Nat)) (k v : Nat) :
    dictGet (dictUpd m k v) k = v := by
  induction m with
  | nil => simp [dictUpd, dictGet, List.lookup]
  | cons p ps ih =>
    by_cases h : p.1 = k
    · simp [dictUpd, h, dictGet, List.lookup]
    · simp only [dictUpd, if_neg h, dictGet, List.lookup]
      have hbeq : (k == p.1) = false := by
        simp [beq_iff_eq]
        exact fun hh => h hh.symm
      simp [hbeq]
      exact ih

theorem dictGet_upd_ne (m : List (Nat × Nat)) (k v s : Nat) (h : s ≠ k) :
    dictGet (dictUpd m k v) s = dictGet m s := by
  have hbeq : (s == k) = false := by
    simp only [beq_eq_false_iff_ne, ne_eq]
    exact h
  induction m with
  | nil => simp [dictUpd, dictGet, List.lookup, hbeq]
  | cons p ps ih =>
    by_cases hp : p.1 = k
    · subst hp
      simp [dictUpd, dictGet, List.lookup, hbeq]
    · simp only [dictUpd, if_neg hp, dictGet, List.lookup]
      cases hsp : (s == p.1) with
      | true => simp
      | false => simpa [dictGet, List.lookup] using ih

theorem keys_upd (m : List (Nat × Nat)) (k v : Nat) (s : Nat) :
    s ∈ (dictUpd m k v).map (fun p => p.1) ↔
      s ∈ m.map (fun p => p.1) ∨ s = k := by
  induction m with
  | nil => simp [dictUpd]
  | cons p ps ih =>
    by_cases hp : p.1 = k
    · simp [dictUpd, hp]
      tauto
    · simp [dictUpd, hp, ih]
      tauto

theorem keys_upd_nodup (m : List (Nat × Nat)) (k v : Nat)
    (h : (m.map (fun p => p.1)).Nodup) :
    ((dictUpd m k v).map (fun p => p.1)).Nodup := by
  induction m with
  | nil => simp [dictUpd]
  | cons p ps ih =>
    simp only [List.map_cons, List.nodup_cons] at h
    by_cases hp : p.1 = k
    · simp only [dictUpd, if_pos hp, List.map_cons, List.nodup_cons]
      refine ⟨?_, h.2⟩
      rw [← hp]
      exact h.1
    · simp only [dictUpd, if_neg hp, List.map_cons, List.nodup_cons]
      refine ⟨?_, ih h.2⟩
      intro hmem
      rcases (keys_upd ps k v p.1).mp hmem with hin | heq
      · exact h.1 hin
      · exact hp heq

theorem length_upd_mem (m : List (Nat × Nat)) (k v : Nat)
    (h : k ∈ m.map (fun p => p.1)) :
    (dictUpd m k v).length = m.length := by
  induction m with
  | nil => simp at h
  | cons p ps ih =>
    by_cases hp : p.1 = k
    · simp [dictUpd, hp]
    · simp only [List.map_cons, List.mem_cons] at h
      rcases h with h | h

      · exact absurd h.symm hp
      · simp [dictUpd, hp, ih h]

theorem length_upd_not_mem (m : List (Nat × Nat)) (k v : Nat)
    (h : k ∉ m.map (fun p => p.1)) :
    (dictUpd m k v).length = m.length + 1 := by
  induction m with
  | nil => simp [dictUpd]
  | cons p ps ih =>
    simp only [List.map_cons, List.mem_cons] at h
    push_neg at h
    have hp : p.1 ≠ k := fun hh => h.1 hh.symm
    simp [dictUpd, hp, ih h.2]

/-! ## Lemmas about the aggregation loop -/

theorem aggRun_snoc (es : List (Nat × Nat)) (e : Nat × Nat) :
    aggRun (es ++ [e]) = aggStep (aggRun es) e := by
  simp [aggRun, List.foldl_append]

theorem matchingDict_snoc (es : List (Nat × Nat)) (e : Nat × Nat) :
    matchingDict (es ++ [e]) =
      dictUpd (matchingDict es) e.1
        (min (dictGet (matchingDict es) e.1 + e.2) 1) := by
  simp [matchingDict, aggRun_snoc, aggStep]

theorem transMatch_snoc (es : List (Nat × Nat)) (e : Nat × Nat) :
    transMatch (es ++ [e]) =
      transMatch es ++
        [(e.1, min (dictGet (matchingDict (es ++ [e])) e.1 + e.2) 1)] := by
  simp [transMatch, matchingDict, aggRun_snoc, aggStep]

/-- The capped accumulation satisfies `min (min S 1 + h) 1 = min (S + h) 1`. -/
theorem minCapAdd (S h : Nat) : min (min S 1 + h) 1 = min (S + h) 1 := by
  omega

/-- After the whole loop, the dict value of any source id is the hit sum of
its rows, capped at 1. -/
theorem dictGet_matchingDict (entries : List (Nat × Nat)) (s : Nat) :
    dictGet (matchingDict entries) s =
      min (((entries.filter (fun e => e.1 = s)).map (fun e => e.2)).sum) 1 := by
  induction entries using List.reverseRecOn with
  | nil => simp [matchingDict, aggRun, dictGet, List.lookup]
  | append_singleton es e ih =>
    rw [matchingDict_snoc]
    by_cases h : e.1 = s
    · subst h
      rw [dictGet_upd_self, ih, minCapAdd]
      simp [List.filter_append]
    · rw [dictGet_upd_ne _ _ _ _ (fun hh => h hh.symm), ih]
      have : (List.filter (fun e => decide (e.1 = s)) [e]) = [] := by
        simp [List.filter, h]
      simp [List.filter_append, this]

/-- The keys of the final dict are exactly the source ids of the rows. -/
theorem keys_matchingDict (entries : List (Nat × Nat)) (s : Nat) :
    s ∈ (matchingDict entries).map (fun p => p.1) ↔
      s ∈ entries.map (fun p => p.1) := by
  induction entries using List.reverseRecOn with
  | nil => simp [matchingDict, aggRun]
  | append_singleton es e ih =>
    rw [matchingDict_snoc, keys_upd, ih]
    simp only [List.map_append, List.map_cons, List.map_nil, List.mem_append,
      List.mem_cons, List.not_mem_nil, or_false]

/-- The final dict has no repeated key. -/
theorem keys_matchingDict_nodup (entries : List (Nat × Nat)) :
    ((matchingDict entries).map (fun p => p.1)).Nodup := by
  induction entries using List.reverseRecOn with
  | nil => simp [matchingDict, aggRun]
  | append_singleton es e ih =>
    rw [matchingDict_snoc]
    exact keys_upd_nodup _ _ _ ih

/-- In a dict with nodup keys, each stored entry is retrieved by lookup. -/
theorem lookup_self_of_nodup (m : List (Nat × Nat))
    (h : (m.map (fun p => p.1)).Nodup) (p : Nat × Nat) (hp : p ∈ m) :
    List.lookup p.1 m = some p.2 := by
  induction m with
  | nil => simp at hp
  | cons q qs ih =>
    simp only [List.map_cons, List.nodup_cons] at h
    rcases List.mem_cons.mp hp with rfl | hp'
    · simp [List.lookup]
    · have hne : (p.1 == q.1) = false := by
        simp only [beq_eq_false_iff_ne, ne_eq]
        intro hh
        apply h.1
        rw [← hh]
        exact List.mem_map_of_mem (fun r => r.1) hp'
      simp only [List.lookup, hne]
      exact ih h.2 hp'

/-- `np.sum(list(matching.values()))` is the sum, over the distinct source
ids, of the capped per-source hit sums. -/
theorem valuesSum_matchingDict (entries : List (Nat × Nat)) :
    ((matchingDict entries).map (fun p => p.2)).sum =
      ∑ s ∈ (entries.map (fun p => p.1)).toFinset,
        min (((entries.filter (fun e => e.1 = s)).map (fun e => e.2)).sum) 1 := by
  classical
  have hkeys := keys_matchingDict_nodup entries
  have h1 : (matchingDict entries).map (fun p => p.2) =
      (matchingDict entries).map (fun p => dictGet (matchingDict entries) p.1) := by
    apply List.map_congr_left
    intro p hp
    simp [dictGet, lookup_self_of_nodup (matchingDict entries) hkeys p hp]
  rw [h1, show (matchingDict entries).map
        (fun p => dictGet (matchingDict entries) p.1) =
      ((matchingDict entries).map (fun p => p.1)).map
        (fun s => dictGet (matchingDict entries) s) by rw [List.map_map]; rfl]
  rw [← List.sum_toFinset _ hkeys]
  have hset : ((matchingDict entries).map (fun p => p.1)).toFinset =
      (entries.map (fun p => p.1)).toFinset := by
    ext s
    rw [List.mem_toFinset, List.mem_toFinset]
    exact keys_matchingDict entries s
  rw [hset]
  exact Finset.sum_congr rfl (fun s _ => dictGet_matchingDict entries s)

/-- `len(matching)` is the number of distinct source ids of the rows. -/
theorem length_matchingDict (entries : List (Nat × Nat)) :
    (matchingDict entries).length = (entries.map (fun p => p.1)).dedup.length := by
  classical
  have h1 : (matchingDict entries).length =
      ((matchingDict entries).map (fun p => p.1)).length := by simp
  rw [h1, ← List.toFinset_card_of_nodup (keys_matchingDict_nodup entries)]
  have hset : ((matchingDict entries).map (fun p => p.1)).toFinset =
      (entries.map (fun p => p.1)).toFinset := by
    ext s
    rw [List.mem_toFinset, List.mem_toFinset]
    exact keys_matchingDict entries s
  rw [hset, List.card_toFinset]

/-- The trace list has one element per processed row. -/
theorem transMatch_length (entries : List (Nat × Nat)) :
    (transMatch entries).length = entries.length := by
  induction entries using List.reverseRecOn with
  | nil => rfl
  | append_singleton es e ih =>
    rw [transMatch_snoc]
    simp [ih]

/-- Entry `i` of the trace list carries the very value stored in the dict
for the source id of row `i` by the update of that same row: the second
read-and-add is neutralized by the cap. -/
theorem transMatch_getD (entries : List (Nat × Nat)) (i : Nat)
    (hi : i < entries.length) :
    (transMatch entries).getD i (0, 0) =
      ((entries.getD i (0, 0)).1,
        dictGet (matchingDict (entries.take (i + 1)))
          (entries.getD i (0, 0)).1) := by
  induction entries using List.reverseRecOn with
  | nil => simp at hi
  | append_singleton es e ih =>
    rcases Nat.lt_or_ge i es.length with hlt | hge
    · have htr : i < (transMatch es).length := by
        rw [transMatch_length]
        exact hlt
      rw [transMatch_snoc, List.getD_append _ _ _ _ htr,
        List.getD_append _ _ _ _ hlt,
        List.take_append_of_le_length (by omega), ih hlt]
    · have hieq : i = es.length := by
        rw [List.length_append, List.length_cons, List.length_nil] at hi
        omega
      subst hieq
      have hlen2 : (transMatch es).length = es.length := transMatch_length es
      have h1 : (transMatch (es ++ [e])).getD es.length (0, 0) =
          (e.1, min (dictGet (matchingDict (es ++ [e])) e.1 + e.2) 1) := by
        rw [transMatch_snoc]
        rw [List.getD_eq_getElem _ _ (by simp [hlen2])]
        rw [List.getElem_append_right hlen2.le]
        simp [hlen2]
      have h2 : (es ++ [e]).getD es.length (0, 0) = e := by
        rw [List.getD_eq_getElem _ _ (by simp)]
        rw [List.getElem_append_right (by omega)]
        simp
      have h3 : (es ++ [e]).take (es.length + 1) = es ++ [e] := by
        apply List.take_of_length_le
        simp
      have h4 : dictGet (matchingDict (es ++ [e])) e.1 =
          min (dictGet (matchingDict es) e.1 + e.2) 1 := by
        rw [matchingDict_snoc, dictGet_upd_self]
      rw [h1, h2, h3, h4]
      simp only [Prod.mk.injEq, true_and]
      omega

/-! ## The spec wording of the aggregated quantities

These definitions follow the words of the specification and of the claims;
the theorems below compare them with the code model above. -/

/-- The spec counting of `n_relevant`: the number of rows whose top-k index
set intersects the set of all gold target ids of the dictionary. -/
def specNRelevant (k : Nat) (topk : List (List Nat)) (dico : List (Nat × Nat)) :
    Nat :=
  topk.countP (fun row =>
    decide (((row.take k).toFinset ∩ (dico.map (fun p => p.2)).toFinset).Nonempty))

/-- The spec wording of the numerator: the sum over the distinct source ids
of the per-source hit sums capped at `1`. -/
def specCappedSum (k : Nat) (topk : List (List Nat)) (dico : List (Nat × Nat)) :
    Nat :=
  ∑ s ∈ (dico.map (fun p => p.1)).toFinset,
    min ((((dico.zip topk).filter (fun pr => pr.1.1 = s)).map
        (fun pr => rowHit k pr.2 pr.1.2)).sum) 1

/-- The membership scan with break of the code counts exactly the rows
whose top-k set meets the gold target set. -/
theorem nRelevant_eq_spec (k : Nat) (topk : List (List Nat))
    (dico : List (Nat × Nat)) :
    nRelevantCode k topk dico = specNRelevant k topk dico := by
  unfold nRelevantCode specNRelevant
  apply List.countP_congr
  intro row _
  simp only [List.any_eq_true, decide_eq_true_eq, Finset.Nonempty,
    Finset.mem_inter, List.mem_toFinset, listedDico]
  constructor
  · rintro ⟨v, hv, hc⟩
    exact ⟨v, hv, by simpa using hc⟩
  · rintro ⟨v, hv, hc⟩
    exact ⟨v, hv, by simpa using hc⟩

/-- The source ids of the loop rows are the source ids of the dictionary. -/
theorem hitEntries_fst (k : Nat) (topk : List (List Nat))
    (dico : List (Nat × Nat)) (hlen : topk.length = dico.length) :
    (hitEntries k topk dico).map (fun p => p.1) = dico.map (fun p => p.1) := by
  unfold hitEntries
  rw [List.map_map]
  have h1 : ((fun p : Nat × Nat => p.1) ∘
      fun pr : (Nat × Nat) × List Nat => (pr.1.1, rowHit k pr.2 pr.1.2)) =
      ((fun p : Nat × Nat => p.1) ∘ Prod.fst) := rfl
  rw [h1, ← List.map_map, List.map_fst_zip _ _ (by omega)]

/-- `np.sum(list(matching.values()))` agrees with the spec numerator. -/
theorem matchSum_eq_spec (k : Nat) (topk : List (List Nat))
    (dico : List (Nat × Nat)) (hlen : topk.length = dico.length) :
    matchSum k topk dico = specCappedSum k topk dico := by
  unfold matchSum specCappedSum
  rw [valuesSum_matchingDict, hitEntries_fst k topk dico hlen]
  apply Finset.sum_congr rfl
  intro s _
  congr 1
  unfold hitEntries
  rw [List.filter_map, List.map_map]
  rfl

/-- `len(matching)` agrees with the number of distinct source ids. -/
theorem nDistinct_eq (k : Nat) (topk : List (List Nat))
    (dico : List (Nat × Nat)) (hlen : topk.length = dico.length) :
    nDistinct k topk dico = ((dico.map (fun p => p.1)).dedup).length := by
  unfold nDistinct
  rw [length_matchingDict, hitEntries_fst k topk dico hlen]

/-- The spec numerator is monotone in the cutoff: a larger top-k prefix can
only add hits. -/
theorem specCappedSum_mono (k k' : Nat) (hk : k ≤ k') (topk : List (List Nat))
    (dico : List (Nat × Nat)) :
    specCappedSum k topk dico ≤ specCappedSum k' topk dico := by
  unfold specCappedSum
  apply Finset.sum_le_sum
  intro s _
  apply min_le_min _ le_rfl
  apply List.sum_le_sum
  intro pr _
  unfold rowHit
  have hsub : (pr.2.take k).Sublist (pr.2.take k') := by
    have h1 : pr.2.take k = (pr.2.take k').take k := by
      rw [List.take_take, min_eq_left hk]
    rw [h1]
    exact List.take_sublist k (pr.2.take k')
  exact hsub.count_le _

/-! ## Claims about the metric aggregation -/

/-- C1: for every evaluation run and cutoff `k`, the reported precision@k
equals `100` times the sum of the capped per-source-word hits divided by
`n_relevant`, where `n_relevant` counts the top-k rows (one per dictionary
pair) whose top-k index set intersects the set of all gold target ids
appearing anywhere in the dictionary. -/
theorem c1_precision_matches_spec (k : Nat) (topk : List (List Nat))
    (dico : List (Nat × Nat)) (hlen : topk.length = dico.length)
    (hnr : nRelevantCode k topk dico ≠ 0) :
    precisionAtK k topk dico =
      100 * (specCappedSum k topk dico : ℚ) /
        (specNRelevant k topk dico : ℚ) := by
  unfold precisionAtK
  rw [matchSum_eq_spec k topk dico hlen, nRelevant_eq_spec]

theorem c1_precision_matches_spec_witness :
    nRelevantCode 1 [[0]] [(0, 0)] ≠ 0 ∧
      precisionAtK 1 [[0]] [(0, 0)] =
        100 * (specCappedSum 1 [[0]] [(0, 0)] : ℚ) /
          (specNRelevant 1 [[0]] [(0, 0)] : ℚ) :=
  ⟨by decide, c1_precision_matches_spec 1 [[0]] [(0, 0)] rfl (by decide)⟩

/-- C2: for every run, cutoff and source id, the aggregated hit value of
that source id is the sum of the 0/1 hits of its dictionary rows capped at
`1`; the rows carry 0/1 hits because top-k rows have no duplicate indices,
so a source word with two gold targets both retrieved contributes exactly
`1` to the hit sum. -/
theorem c2_capped_hits (k : Nat) (topk : List (List Nat))
    (dico : List (Nat × Nat)) (hlen : topk.length = dico.length)
    (hnd : ∀ row ∈ topk, row.Nodup) (s : Nat) :
    dictGet (matchingDict (hitEntries k topk dico)) s =
      min ((((dico.zip topk).filter (fun pr => pr.1.1 = s)).map
          (fun pr => rowHit k pr.2 pr.1.2)).sum) 1 ∧
      ∀ pr ∈ dico.zip topk, rowHit k pr.2 pr.1.2 ≤ 1 := by
  constructor
  · rw [dictGet_matchingDict]
    congr 1
    unfold hitEntries
    rw [List.filter_map, List.map_map]
    rfl
  · rintro ⟨p, row⟩ hpr
    have hrow : row ∈ topk := (List.of_mem_zip hpr).2
    have hnodup : (row.take k).Nodup :=
      List.Nodup.sublist (List.take_sublist k row) (hnd row hrow)
    exact List.nodup_iff_count_le_one.mp hnodup _

theorem c2_capped_hits_witness :
    (([[0, 1], [0, 1]] : List (List Nat)).length =
        ([(0, 0), (0, 1)] : List (Nat × Nat)).length) ∧
      (∀ row ∈ ([[0, 1], [0, 1]] : List (List Nat)), row.Nodup) ∧
      (dictGet (matchingDict (hitEntries 2 [[0, 1], [0, 1]] [(0, 0), (0, 1)])) 0 =
          min (((([(0, 0), (0, 1)].zip [[0, 1], [0, 1]]).filter
              (fun pr => pr.1.1 = 0)).map
              (fun pr => rowHit 2 pr.2 pr.1.2)).sum) 1 ∧
        ∀ pr ∈ [(0, 0), (0, 1)].zip [[0, 1], [0, 1]],
          rowHit 2 pr.2 pr.1.2 ≤ 1) :=
  ⟨rfl, by decide,
    c2_capped_hits 2 [[0, 1], [0, 1]] [(0, 0), (0, 1)] rfl (by decide) 0⟩

/-- C5 (amended): the reported recall@k is `100` times the sum of the
capped per-word hits divided by the number of DISTINCT SOURCE IDS OF THE
FILTERED DICTIONARY (`np.mean` over the matching values); `n_gold_std` is
computed and returned but takes no part in the reported recall. -/
theorem c5_recall_amended (k : Nat) (topk : List (List Nat))
    (dico : List (Nat × Nat)) (hlen : topk.length = dico.length)
    (hne : dico ≠ []) :
    recallAtK k topk dico =
      100 * (specCappedSum k topk dico : ℚ) /
        (((dico.map (fun p => p.1)).dedup).length : ℚ) := by
  unfold recallAtK
  rw [matchSum_eq_spec k topk dico hlen, nDistinct_eq k topk dico hlen]

theorem c5_recall_amended_witness :
    (([[0], [0]] : List (List Nat)).length =
        ([(0, 0), (1, 1)] : List (Nat × Nat)).length) ∧
      ([(0, 0), (1, 1)] : List (Nat × Nat)) ≠ [] ∧
      recallAtK 1 [[0], [0]] [(0, 0), (1, 1)] =
        100 * (specCappedSum 1 [[0], [0]] [(0, 0), (1, 1)] : ℚ) /
          ((([(0, 0), (1, 1)] : List (Nat × Nat)).map (fun p => p.1)).dedup.length : ℚ) :=
  ⟨rfl, by decide, c5_recall_amended 1 [[0], [0]] [(0, 0), (1, 1)] rfl (by decide)⟩

/-- C6: for a fixed score matrix and dictionary, the reported recall@k is
non-decreasing in the cutoff, because the top-k prefix of each row is a
subset of the larger-cutoff prefix of the same row. -/
theorem c6_recall_monotone (topk : List (List Nat)) (dico : List (Nat × Nat))
    (k k' : Nat) (hk : k ≤ k') (hlen : topk.length = dico.length)
    (hne : dico ≠ []) :
    recallAtK k topk dico ≤ recallAtK k' topk dico := by
  unfold recallAtK
  rw [matchSum_eq_spec k topk dico hlen, matchSum_eq_spec k' topk dico hlen,
    nDistinct_eq k topk dico hlen, nDistinct_eq k' topk dico hlen]
  have hnum : (specCappedSum k topk dico : ℚ) ≤ specCappedSum k' topk dico := by
    exact_mod_cast specCappedSum_mono k k' hk topk dico
  have hDpos : (0 : ℚ) < (((dico.map (fun p => p.1)).dedup).length : ℚ) := by
    have h1 : dico.map (fun p => p.1) ≠ [] := by
      intro h
      exact hne (List.map_eq_nil_iff.mp h)
    have h2 : ((dico.map (fun p => p.1)).dedup) ≠ [] := by
      intro h
      exact h1 ((List.dedup_eq_nil _).mp h)
    exact_mod_cast List.length_pos.mpr h2
  rw [div_le_div_iff_of_pos_right hDpos]
  linarith

theorem c6_recall_monotone_witness :
    (1 : Nat) ≤ 2 ∧ ([[1, 0]] : List (List Nat)).length = ([(0, 0)] : List (Nat × Nat)).length ∧
      ([(0, 0)] : List (Nat × Nat)) ≠ [] ∧
      recallAtK 1 [[1, 0]] [(0, 0)] ≤ recallAtK 2 [[1, 0]] [(0, 0)] :=
  ⟨by decide, rfl, by decide,
    c6_recall_monotone [[1, 0]] [(0, 0)] 1 2 (by decide) rfl (by decide)⟩

/-- C10: the per-row value appended to the trace list equals the value
that the update of the same row stored in the dict for its source id: the
read-add-cap re-computation collapses to the stored value, so the trace
view never diverges from the dict view within a run. -/
theorem c10_trace_matches_dict (k : Nat) (topk : List (List Nat))
    (dico : List (Nat × Nat)) (hlen : topk.length = dico.length) (i : Nat)
    (hi : i < dico.length) :
    (transMatch (hitEntries k topk dico)).getD i (0, 0) =
      ((dico.getD i (0, 0)).1,
        dictGet (matchingDict ((hitEntries k topk dico).take (i + 1)))
          (dico.getD i (0, 0)).1) := by
  have hle : (hitEntries k topk dico).length = dico.length := by
    unfold hitEntries
    simp [hlen]
  have hi' : i < (hitEntries k topk dico).length := by
    rw [hle]
    exact hi
  have hzip : i < (dico.zip topk).length := by
    simp [hlen]
    omega
  have hfst : ((hitEntries k topk dico).getD i (0, 0)).1 =
      (dico.getD i (0, 0)).1 := by
    rw [List.getD_eq_getElem _ _ hi', List.getD_eq_getElem _ _ hi]
    simp [hitEntries, List.getElem_zip]
  rw [transMatch_getD (hitEntries k topk dico) i hi', hfst]

theorem c10_trace_matches_dict_witness :
    (([[0]] : List (List Nat)).length = ([(0, 0)] : List (Nat × Nat)).length) ∧
      (0 : Nat) < ([(0, 0)] : List (Nat × Nat)).length ∧
      (transMatch (hitEntries 1 [[0]] [(0, 0)])).getD 0 (0, 0) =
        ((([(0, 0)] : List (Nat × Nat)).getD 0 (0, 0)).1,
          dictGet (matchingDict ((hitEntries 1 [[0]] [(0, 0)]).take 1))
            (([(0, 0)] : List (Nat × Nat)).getD 0 (0, 0)).1) :=
  ⟨rfl, by decide, c10_trace_matches_dict 1 [[0]] [(0, 0)] rfl 0 (by decide)⟩

/-! ## Claims about the scoring methods -/

/-- C3: every CSLS score entry equals twice the dot product of the
normalized query row and target row, minus the average k-NN similarity of
the source word and of the target word computed over the full
vocabularies. -/
theorem c3_csls_identity (emb1 emb2 : List (List ℚ)) (dico : List (Nat × Nat))
    (knn : Nat) (i j : Nat) (hi : i < dico.length) (hj : j < emb2.length) :
    ((cslsScores emb1 emb2 dico knn).getD i []).getD j 0 =
      2 * dotQ (emb1.getD (dico.getD i (0, 0)).1 []) (emb2.getD j []) -
        (gnnAvgDist emb2 emb1 knn).getD (dico.getD i (0, 0)).1 0 -
        (gnnAvgDist emb1 emb2 knn).getD j 0 := by
  have havg2 : (gnnAvgDist emb1 emb2 knn).length = emb2.length := by
    simp [gnnAvgDist]
  have hflen : (cslsScores emb1 emb2 dico knn).length = dico.length := by
    simp [cslsScores, nnScores]
  have hi2 : i < (cslsScores emb1 emb2 dico knn).length := by
    rw [hflen]
    exact hi
  have hrowlen : ((cslsScores emb1 emb2 dico knn)[i]).length = emb2.length := by
    simp [cslsScores, nnScores, List.getElem_map, List.getElem_zip, havg2]
  have hj2 : j < ((cslsScores emb1 emb2 dico knn)[i]).length := by
    rw [hrowlen]
    exact hj
  rw [List.getD_eq_getElem _ _ hi2, List.getD_eq_getElem _ _ hj2,
    List.getD_eq_getElem dico (0, 0) hi, List.getD_eq_getElem emb2 [] hj,
    List.getD_eq_getElem _ _ (show j < (gnnAvgDist emb1 emb2 knn).length by
      rw [havg2]; exact hj)]
  simp [cslsScores, nnScores, List.getElem_map, List.getElem_zipWith,
    List.getElem_zip]

theorem c3_csls_identity_witness :
    (0 : Nat) < ([(0, 0)] : List (Nat × Nat)).length ∧
      (0 : Nat) < ([[1]] : List (List ℚ)).length ∧
      ((cslsScores [[1]] [[1]] [(0, 0)] 1).getD 0 []).getD 0 0 =
        2 * dotQ (([[1]] : List (List ℚ)).getD
            (([(0, 0)] : List (Nat × Nat)).getD 0 (0, 0)).1 [])
            (([[1]] : List (List ℚ)).getD 0 []) -
          (gnnAvgDist [[1]] [[1]] 1).getD
            (([(0, 0)] : List (Nat × Nat)).getD 0 (0, 0)).1 0 -
          (gnnAvgDist [[1]] [[1]] 1).getD 0 0 :=
  ⟨by decide, by decide,
    c3_csls_identity [[1]] [[1]] [(0, 0)] 1 0 0 (by decide) (by decide)⟩

/-- Length of the accumulated column sums. -/
theorem colSums_length (w : Nat) (m : List (List ℚ))
    (hw : ∀ row ∈ m, row.length = w) : (colSums w m).length = w := by
  induction m with
  | nil => simp [colSums]
  | cons row rows ih =>
    have h1 := hw row (List.mem_cons_self row rows)
    have h2 : ∀ r ∈ rows, r.length = w :=
      fun r hr => hw r (List.mem_cons_of_mem _ hr)
    simp only [colSums, List.foldr_cons] at ih ⊢
    rw [List.length_zipWith, ih h2, h1, min_self]

/-- Each accumulated column sum is the sum of that column. -/
theorem colSums_getD (w : Nat) (m : List (List ℚ))
    (hw : ∀ row ∈ m, row.length = w) (c : Nat) (hc : c < w) :
    (colSums w m).getD c 0 = (m.map (fun row => row.getD c 0)).sum := by
  induction m with
  | nil =>
    simp only [colSums, List.foldr_nil, List.map_nil, List.sum_nil]
    rw [List.getD_eq_getElem _ _ (by simpa using hc)]
    simp
  | cons row rows ih =>
    have h1 := hw row (List.mem_cons_self row rows)
    have h2 : ∀ r ∈ rows, r.length = w :=
      fun r hr => hw r (List.mem_cons_of_mem _ hr)
    have hlens : (colSums w rows).length = w := colSums_length w rows h2
    have hstep : colSums w (row :: rows) =
        List.zipWith (fun a b => a + b) row (colSums w rows) := rfl
    have hzlen : c < (List.zipWith (fun a b => a + b) row (colSums w rows)).length := by
      rw [List.length_zipWith, h1, hlens, min_self]
      exact hc
    rw [hstep, List.getD_eq_getElem _ _ hzlen, List.getElem_zipWith,
      ← List.getD_eq_getElem row 0 (by rw [h1]; exact hc),
      ← List.getD_eq_getElem (colSums w rows) 0 (by rw [hlens]; exact hc),
      ih h2]
    simp

/-- Sums of lists divided entrywise by a constant. -/
theorem sum_map_div {α : Type} (l : List α) (f : α → ℚ) (c : ℚ) :
    (l.map (fun x => f x / c)).sum = (l.map f).sum / c := by
  induction l with
  | nil => simp
  | cons x xs ih => simp [ih, add_div]

/-- C4: in the intermediate full-source-vocabulary matrix of one inverted
softmax column batch, every target column sums to exactly one over the
entire source vocabulary, for any positive β and any positive exponential,
because each column is normalized by its own sum over all source rows. -/
theorem c4_invsm_columns_sum_one (ef : ℚ → ℚ) (β : ℚ)
    (emb1 emb2b : List (List ℚ)) (hβ : 0 < β) (hef : ∀ x, 0 < ef x)
    (hne : emb1 ≠ []) (j : Nat) (hj : j < emb2b.length) :
    ((invsmBatch ef β emb1 emb2b).map (fun row => row.getD j 0)).sum = 1 := by
  set w := emb2b.length with hw
  set m := emb1.map (fun u => emb2b.map (fun v => ef (β * dotQ u v))) with hm
  have hrows : ∀ row ∈ m, row.length = w := by
    intro row hrow
    rcases List.mem_map.mp hrow with ⟨u, _, rfl⟩
    simp
  have hslen : (colSums w m).length = w := colSums_length w m hrows
  have hcol : (invsmBatch ef β emb1 emb2b).map (fun row => row.getD j 0) =
      m.map (fun row => row.getD j 0 / (colSums w m).getD j 0) := by
    rw [invsmBatch]
    rw [List.map_map]
    apply List.map_congr_left
    intro row hrow
    have hrl : row.length = w := hrows row hrow
    have hzl : j < (List.zipWith (fun a b => a / b) row (colSums w m)).length := by
      rw [List.length_zipWith, hrl, hslen, min_self]
      exact hj
    simp only [Function.comp]
    rw [List.getD_eq_getElem _ _ hzl, List.getElem_zipWith,
      ← List.getD_eq_getElem row 0 (by rw [hrl]; exact hj),
      ← List.getD_eq_getElem _ 0 (by rw [hslen]; exact hj)]
  rw [hcol, sum_map_div m (fun row => row.getD j 0) ((colSums w m).getD j 0),
    colSums_getD w m hrows j hj]
  have hpos : (0 : ℚ) < (m.map (fun row => row.getD j 0)).sum := by
    apply List.sum_pos
    · intro x hx
      rcases List.mem_map.mp hx with ⟨row, hrow, rfl⟩
      rcases List.mem_map.mp hrow with ⟨u, _, rfl⟩
      rw [List.getD_eq_getElem _ _ (by simpa using hj), List.getElem_map]
      exact hef _
    · simp only [ne_eq, List.map_eq_nil_iff]
      rw [hm]
      simpa using hne
  exact div_self (ne_of_gt hpos)

theorem c4_invsm_columns_sum_one_witness :
    (0 : ℚ) < 2 ∧ (∀ x : ℚ, 0 < (fun _ : ℚ => (1 : ℚ)) x) ∧
      ([[1]] : List (List ℚ)) ≠ [] ∧ (0 : Nat) < ([[1]] : List (List ℚ)).length ∧
      ((invsmBatch (fun _ => 1) 2 [[1]] [[1]]).map (fun row => row.getD 0 0)).sum = 1 :=
  ⟨two_pos, fun _ => one_pos, by simp,  by simp,
    c4_invsm_columns_sum_one (fun _ => 1) 2 [[1]] [[1]] two_pos
      (fun _ => one_pos) (by simp) 0 (by simp)⟩

/-! ## Claims about loading and about the degenerate runs -/

/-- C7 counterexample: a gold file whose every pair is out of vocabulary
loads successfully into an EMPTY dictionary; dictionary construction
raises no empty-dictionary error. -/
theorem c7_empty_dico_counterexample :
    loadDictionary ["foo bar"] [("cat", 0)] [("chat", 0)] =
      Except.ok ⟨[], 1, [], (1, 1, 1)⟩ := by
  decide

/-- C7 (amended): with zero surviving pairs `load_dictionary` returns an
empty index without raising, and the evaluation then aborts at
`dico[:, 0].max()` — the max of an empty tensor raises — so the outcome is
an error rather than a silent zero-metric result, but the error is not an
explicit empty-dictionary error from dictionary construction. -/
theorem c7_empty_dico_amended (data : List String) (w1 w2 : List (String × Nat))
    (n1 n2 : Nat) (r : LoadResult)
    (hload : loadDictionary data w1 w2 = Except.ok r) (hdico : r.dico = []) :
    evalPrelude data w1 w2 n1 n2 =
      Except.error "max(): cannot perform reduction on an empty tensor" := by
  obtain ⟨d, g, ws, nf⟩ := r
  have hd : d = [] := hdico
  subst hd
  unfold evalPrelude
  rw [hload]
  rfl

theorem c7_empty_dico_amended_witness :
    loadDictionary ["foo bar"] [("cat", 0)] [("chat", 0)] =
        Except.ok (⟨[], 1, [], (1, 1, 1)⟩ : LoadResult) ∧
      (⟨[], 1, [], (1, 1, 1)⟩ : LoadResult).dico = [] ∧
      evalPrelude ["foo bar"] [("cat", 0)] [("chat", 0)] 5 5 =
        Except.error "max(): cannot perform reduction on an empty tensor" :=
  ⟨by decide, rfl,
    c7_empty_dico_amended ["foo bar"] [("cat", 0)] [("chat", 0)] 5 5
      ⟨[], 1, [], (1, 1, 1)⟩ (by decide) rfl⟩

/-- C9: a dictionary file containing a zero-token line makes
`load_dictionary` raise IndexError from the `n_gold_std` comprehension
before the loop can skip the line with a warning; a one-token line, by
contrast, is skipped with a warning and loading completes. -/
theorem c9_zero_token_line_indexerror :
    loadDictionary ["cat chat", ""] [("cat", 0)] [("chat", 0)] =
        Except.error "IndexError: list index out of range" ∧
      loadDictionary ["cat chat", "cat"] [("cat", 0)] [("chat", 0)] =
        Except.ok ⟨[(0, 0)], 1, [(1, "cat")], (0, 0, 0)⟩ := by
  constructor
  · decide
  · decide

/-- C5 counterexample: a raw gold file with three distinct source words,
one of whose pairs is dropped by vocabulary filtering, yields
`n_gold_std = 3`, while the reported recall@1 of a run with one hit over
the two surviving distinct source ids is `50`, which differs from
`100 · (hit sum) / n_gold_std = 100/3`. -/
theorem c5_recall_counterexample :
    loadDictionary ["aa xx", "bb yy", "cc zz"] [("aa", 0), ("bb", 1)]
        [("xx", 0), ("yy", 1)] =
      Except.ok ⟨[(0, 0), (1, 1)], 3, [], (1, 1, 1)⟩ ∧
    recallAtK 1 [[0], [0]] [(0, 0), (1, 1)] = 50 ∧
    100 * (matchSum 1 [[0], [0]] [(0, 0), (1, 1)] : ℚ) / 3 ≠ 50 := by
  have hm : matchSum 1 [[0], [0]] [(0, 0), (1, 1)] = 1 := by decide
  have hd : nDistinct 1 [[0], [0]] [(0, 0), (1, 1)] = 2 := by decide
  refine ⟨by decide, ?_, ?_⟩
  · unfold recallAtK
    rw [hm, hd]
    norm_num
  · rw [hm]
    norm_num

/-- C8 counterexample: a run with zero hits but nonzero `n_relevant` has
precision + recall = 0, yet the F1 computation does not fail: the
unguarded division still produces a reported value (the float code yields
a silent NaN with a runtime warning; the rational model yields the junk
value 0 of division by zero). -/
theorem c8_f1_counterexample :
    precisionAtK 1 [[1], [0]] [(0, 0), (1, 1)] +
        recallAtK 1 [[1], [0]] [(0, 0), (1, 1)] = 0 ∧
      resultsForK 1 [[1], [0]] [(0, 0), (1, 1)] =
        Except.ok [("precision_at_1", 0), ("recall_at_1", 0),
          ("f1score_at_1", 0)] := by
  have hm : matchSum 1 [[1], [0]] [(0, 0), (1, 1)] = 0 := by decide
  have hP : precisionAtK 1 [[1], [0]] [(0, 0), (1, 1)] = 0 := by
    unfold precisionAtK
    rw [hm]
    norm_num
  have hR : recallAtK 1 [[1], [0]] [(0, 0), (1, 1)] = 0 := by
    unfold recallAtK
    rw [hm]
    norm_num
  have hF : f1AtK 1 [[1], [0]] [(0, 0), (1, 1)] = 0 := by
    unfold f1AtK
    rw [hP, hR]
    norm_num
  refine ⟨by rw [hP, hR]; norm_num, ?_⟩
  unfold resultsForK
  rw [hP, hR, hF]
  rfl

/-- C8 (amended): when precision + recall is nonzero the reported F1 equals
`2·P·R/(P+R)`; when precision + recall is zero the computation does not
fail — the same unguarded division is performed, producing a silent NaN in
the float code, modeled by the junk value 0 of rational division by
zero. -/
theorem c8_f1_amended (k : Nat) (topk : List (List Nat))
    (dico : List (Nat × Nat)) :
    (precisionAtK k topk dico + recallAtK k topk dico ≠ 0 →
      f1AtK k topk dico =
        2 * (precisionAtK k topk dico * recallAtK k topk dico) /
          (precisionAtK k topk dico + recallAtK k topk dico)) ∧
    (precisionAtK k topk dico + recallAtK k topk dico = 0 →
      f1AtK k topk dico = 0) := by
  constructor
  · intro _
    rfl
  · intro h
    unfold f1AtK
    rw [h, div_zero]

theorem c8_f1_amended_witness :
    precisionAtK 1 [[0]] [(0, 0)] + recallAtK 1 [[0]] [(0, 0)] ≠ 0 ∧
      f1AtK 1 [[0]] [(0, 0)] =
        2 * (precisionAtK 1 [[0]] [(0, 0)] * recallAtK 1 [[0]] [(0, 0)]) /
          (precisionAtK 1 [[0]] [(0, 0)] + recallAtK 1 [[0]] [(0, 0)]) := by
  have hm : matchSum 1 [[0]] [(0, 0)] = 1 := by decide
  have hnr : nRelevantCode 1 [[0]] [(0, 0)] = 1 := by decide
  have hd : nDistinct 1 [[0]] [(0, 0)] = 1 := by decide
  have hP : precisionAtK 1 [[0]] [(0, 0)] = 100 := by
    unfold precisionAtK
    rw [hm, hnr]
    norm_num
  have hR : recallAtK 1 [[0]] [(0, 0)] = 100 := by
    unfold recallAtK
    rw [hm, hd]
    norm_num
  have hne : precisionAtK 1 [[0]] [(0, 0)] + recallAtK 1 [[0]] [(0, 0)] ≠ 0 := by
    rw [hP, hR]
    norm_num
  exact ⟨hne, (c8_f1_amended 1 [[0]] [(0, 0)]).1 hne⟩

end MuseEval
